import Mathlib

/-!
Verification of `nsr/camera_utils.py` (camera pose and intrinsics helpers).

The Python source operates on torch tensors of floats; we embed it over the
real numbers `ℝ`. Batched operations (shape `(B, …)`) are embedded as
functions `Fin B → …`, broadcast scalar parameters stay scalars, and the
random draws consumed by `torch.randn` / `torch.rand` are passed in
explicitly as functions `Fin B → ℝ`, so each sampler is a deterministic
function of its draws.
-/

noncomputable section

open Real

/-- A 3-vector, the element type of the `(B, 3)` tensors in the source. -/
structure V3 where
  x : ℝ
  y : ℝ
  z : ℝ

/-- Componentwise negation (`-camera_origins`). -/
def neg3 (v : V3) : V3 := ⟨-v.x, -v.y, -v.z⟩

/-- Componentwise subtraction (`lookat_position - camera_origins`). -/
def sub3 (a b : V3) : V3 := ⟨a.x - b.x, a.y - b.y, a.z - b.z⟩

/-- Euclidean dot product of two 3-vectors. -/
def dot3 (a b : V3) : ℝ := a.x * b.x + a.y * b.y + a.z * b.z

/-- Squared Euclidean norm. -/
def normSq (v : V3) : ℝ := dot3 v v

/-- Euclidean norm, `torch.norm(v, dim=-1)`. -/
def norm3 (v : V3) : ℝ := Real.sqrt (normSq v)

/-- The source's `torch.cross(a, b, dim=-1)`, the standard cross product. -/
def cross3 (a b : V3) : V3 :=
  ⟨a.y * b.z - a.z * b.y, a.z * b.x - a.x * b.z, a.x * b.y - a.y * b.x⟩

/-- Modelled from the spec: `math_utils.normalize_vecs` lives in
`nsr/volumetric_rendering/math_utils`, which is not part of the sources here;
spec §4.1 defines it as dividing a 3-vector by its Euclidean norm, and the
local `normalize_vecs` closure inside `generate_input_camera` (which is in
the sources) is exactly `vectors / torch.norm(vectors, dim=-1, keepdim=True)`,
the same formula. -/
def normalize_vecs (v : V3) : V3 :=
  ⟨v.x / norm3 v, v.y / norm3 v, v.z / norm3 v⟩

/-- The source's `torch.clamp(v, lo, hi)`. -/
def clampR (v lo hi : ℝ) : ℝ := min (max v lo) hi

/-- The 4×4 matrix built in `create_cam2world_matrix` by
`torch.eye(4)` followed by `rotation_matrix[:, :3, :3] =
torch.stack((right_vector, up_vector, forward_vector), axis=-1)`:
stacking along the last axis makes the three vectors the first three
columns of the upper-left block. -/
def assembleRotation (right up fwd : V3) : Matrix (Fin 4) (Fin 4) ℝ :=
  Matrix.of ![![right.x, up.x, fwd.x, 0],
              ![right.y, up.y, fwd.y, 0],
              ![right.z, up.z, fwd.z, 0],
              ![0, 0, 0, 1]]

/-- The 4×4 matrix built by `torch.eye(4)` followed by
`translation_matrix[:, :3, 3] = origin`. -/
def assembleTranslation (origin : V3) : Matrix (Fin 4) (Fin 4) ℝ :=
  Matrix.of ![![1, 0, 0, origin.x],
              ![0, 1, 0, origin.y],
              ![0, 0, 1, origin.z],
              ![0, 0, 0, 1]]

/-- The function `create_cam2world_matrix(forward_vector, origin)`:
normalize the forward vector, take world-up `(0,1,0)`,
`right = -normalize(cross(up, forward))`,
`up = normalize(cross(forward, right))`, then return
`translation_matrix @ rotation_matrix`. -/
def create_cam2world_matrix (forward_vector origin : V3) :
    Matrix (Fin 4) (Fin 4) ℝ :=
  let fwd := normalize_vecs forward_vector
  let up_vector : V3 := ⟨0, 1, 0⟩
  let right_vector := neg3 (normalize_vecs (cross3 up_vector fwd))
  let up_corrected := normalize_vecs (cross3 fwd right_vector)
  assembleTranslation origin * assembleRotation right_vector up_corrected fwd

/-- One row of `GaussianCameraPoseSampler.sample`.  The draws of
`torch.randn((batch_size, 1))` are supplied as `randn_h`, `randn_v`. -/
def GaussianCameraPoseSampler.sample (horizontal_mean vertical_mean
    horizontal_stddev vertical_stddev radius : ℝ) (batch_size : ℕ)
    (randn_h randn_v : Fin batch_size → ℝ) (i : Fin batch_size) :
    Matrix (Fin 4) (Fin 4) ℝ :=
  let h := randn_h i * horizontal_stddev + horizontal_mean
  let v0 := randn_v i * vertical_stddev + vertical_mean
  let v1 := clampR v0 1e-5 (Real.pi - 1e-5)
  let theta := h
  let v2 := v1 / Real.pi
  let phi := Real.arccos (1 - 2 * v2)
  let camera_origins : V3 :=
    ⟨radius * Real.sin phi * Real.cos (Real.pi - theta),
     radius * Real.cos phi,
     radius * Real.sin phi * Real.sin (Real.pi - theta)⟩
  let forward_vectors := normalize_vecs (neg3 camera_origins)
  create_cam2world_matrix forward_vectors camera_origins

/-- One row of `LookAtPoseSampler.sample`: same skeleton, but the forward
vector points from the camera origin to `lookat_position`. -/
def LookAtPoseSampler.sample (horizontal_mean vertical_mean : ℝ)
    (lookat_position : V3) (horizontal_stddev vertical_stddev radius : ℝ)
    (batch_size : ℕ) (randn_h randn_v : Fin batch_size → ℝ)
    (i : Fin batch_size) : Matrix (Fin 4) (Fin 4) ℝ :=
  let h := randn_h i * horizontal_stddev + horizontal_mean
  let v0 := randn_v i * vertical_stddev + vertical_mean
  let v1 := clampR v0 1e-5 (Real.pi - 1e-5)
  let theta := h
  let v2 := v1 / Real.pi
  let phi := Real.arccos (1 - 2 * v2)
  let camera_origins : V3 :=
    ⟨radius * Real.sin phi * Real.cos (Real.pi - theta),
     radius * Real.cos phi,
     radius * Real.sin phi * Real.sin (Real.pi - theta)⟩
  let forward_vectors := normalize_vecs (sub3 lookat_position camera_origins)
  create_cam2world_matrix forward_vectors camera_origins

/-- One row of `UniformCameraPoseSampler.sample`: same skeleton, but the
angles come from `torch.rand((batch_size, 1)) * 2 - 1` scaled by the
stddevs; the draws of `torch.rand` (uniform on `[0,1)`) are supplied as
`rand_h`, `rand_v`. -/
def UniformCameraPoseSampler.sample (horizontal_mean vertical_mean
    horizontal_stddev vertical_stddev radius : ℝ) (batch_size : ℕ)
    (rand_h rand_v : Fin batch_size → ℝ) (i : Fin batch_size) :
    Matrix (Fin 4) (Fin 4) ℝ :=
  let h := (rand_h i * 2 - 1) * horizontal_stddev + horizontal_mean
  let v0 := (rand_v i * 2 - 1) * vertical_stddev + vertical_mean
  let v1 := clampR v0 1e-5 (Real.pi - 1e-5)
  let theta := h
  let v2 := v1 / Real.pi
  let phi := Real.arccos (1 - 2 * v2)
  let camera_origins : V3 :=
    ⟨radius * Real.sin phi * Real.cos (Real.pi - theta),
     radius * Real.cos phi,
     radius * Real.sin phi * Real.sin (Real.pi - theta)⟩
  let forward_vectors := normalize_vecs (neg3 camera_origins)
  create_cam2world_matrix forward_vectors camera_origins

/-- The function `FOV_to_intrinsics(fov_degrees)`: note the source uses the literal
constants `3.14159` and `1.414`, not `π` and `√2`. -/
def FOV_to_intrinsics (fov_degrees : ℝ) : Matrix (Fin 3) (Fin 3) ℝ :=
  let focal_length := 1 / (Real.tan (fov_degrees * 3.14159 / 360) * 1.414)
  Matrix.of ![![focal_length, 0, 0.5],
              ![0, focal_length, 0.5],
              ![0, 0, 1]]

/-- Degrees to radians, the source's `np.deg2rad`. -/
def deg2rad (x : ℝ) : ℝ := x * Real.pi / 180

/-- The function `generate_input_camera(r, poses, fov)`: each pose is a
`(pitch_degrees, yaw_degrees)` pair; returns the batch of cam2world
matrices and the flat `(fx, fy, cx, cy)` intrinsics tuple. -/
def generate_input_camera (r : ℝ) (poses : List (ℝ × ℝ)) (fov : ℝ) :
    List (Matrix (Fin 4) (Fin 4) ℝ) × (Fin 4 → ℝ) :=
  (poses.map (fun p =>
      let pitch := deg2rad p.1
      let yaw := deg2rad p.2
      let cam_pos : V3 :=
        ⟨r * Real.cos pitch * Real.cos yaw,
         r * Real.cos pitch * Real.sin yaw,
         r * Real.sin pitch⟩
      let forward_vector := normalize_vecs (neg3 cam_pos)
      let up_vector : V3 := ⟨0, 0, -1⟩
      let left_vector := normalize_vecs (cross3 up_vector forward_vector)
      let up_corrected := normalize_vecs (cross3 forward_vector left_vector)
      assembleTranslation cam_pos *
        assembleRotation left_vector up_corrected forward_vector),
   ![0.5 / Real.tan (deg2rad (fov / 2)),
     0.5 / Real.tan (deg2rad (fov / 2)), 0.5, 0.5])

/-- The hard-coded intrinsics row `K` in `uni_mesh_path`. -/
def zero123K : List ℝ :=
  [1.3889, 0, 0.5, 0, 1.3889, 0.5, 0, 0, 0.0039]

/-- Row-major flattening of a 4×4 matrix (`Tensor.reshape(n, -1)`). -/
def flatten4x4 (M : Matrix (Fin 4) (Fin 4) ℝ) : List ℝ :=
  [M 0 0, M 0 1, M 0 2, M 0 3,
   M 1 0, M 1 1, M 1 2, M 1 3,
   M 2 0, M 2 1, M 2 2, M 2 3,
   M 3 0, M 3 1, M 3 2, M 3 3]

/-- The function `uni_mesh_path(frame_number, radius)`: for each elevation in
`[60, 30, 0, -30, -60]` and each `i < frame_number`, the pose pair
`(elevation, i / frame_number * 360)`; the poses go through
`generate_input_camera(radius, pairs, fov=30)` and each flattened 4×4 pose
row is concatenated with the fixed `zero123K` intrinsics. -/
def uni_mesh_path (frame_number : ℕ) (radius : ℝ) : List (List ℝ) :=
  let pairs : List (ℝ × ℝ) :=
    ([60, 30, 0, -30, -60] : List ℝ).flatMap (fun elevation =>
      (List.range frame_number).map (fun i : ℕ =>
        (elevation, (i : ℝ) / (frame_number : ℝ) * 360)))
  let zero123pp_pose := (generate_input_camera radius pairs 30).1
  zero123pp_pose.map (fun M => flatten4x4 M ++ zero123K)

/-- The `right_vector` computed inside `create_cam2world_matrix`. -/
def rightVec (fv : V3) : V3 :=
  neg3 (normalize_vecs (cross3 ⟨0, 1, 0⟩ (normalize_vecs fv)))

/-- The corrected `up_vector` computed inside `create_cam2world_matrix`. -/
def upVec (fv : V3) : V3 :=
  normalize_vecs (cross3 (normalize_vecs fv) (rightVec fv))

/-- Column `j` of the upper-left 3×3 rotation block of a 4×4 matrix. -/
def rotCol (M : Matrix (Fin 4) (Fin 4) ℝ) (j : Fin 3) : V3 :=
  ⟨M 0 j.castSucc, M 1 j.castSucc, M 2 j.castSucc⟩

lemma assembleTranslation_mul (r u f o : V3) :
    assembleTranslation o * assembleRotation r u f =
    Matrix.of ![![r.x, u.x, f.x, o.x],
                ![r.y, u.y, f.y, o.y],
                ![r.z, u.z, f.z, o.z],
                ![0, 0, 0, 1]] := by
  funext i j
  fin_cases i <;> fin_cases j <;>
    simp [assembleTranslation, assembleRotation, Matrix.mul_apply,
      Fin.sum_univ_four]

lemma create_cam2world_matrix_eq (fv o : V3) :
    create_cam2world_matrix fv o =
    Matrix.of ![![(rightVec fv).x, (upVec fv).x, (normalize_vecs fv).x, o.x],
                ![(rightVec fv).y, (upVec fv).y, (normalize_vecs fv).y, o.y],
                ![(rightVec fv).z, (upVec fv).z, (normalize_vecs fv).z, o.z],
                ![0, 0, 0, 1]] := by
  show assembleTranslation o * assembleRotation _ _ _ = _
  rw [assembleTranslation_mul]
  rfl

/-- C1: the cam2world matrix carries the supplied origin in its translation
column `[:3, 3]` exactly, has bottom row `[0,0,0,1]`, and maps the
camera-local `+z` direction `(0,0,1,0)` to the normalized forward vector
(equivalently, its third rotation column is `normalize(forward)`). -/
theorem create_cam2world_translation_bottom_forward (fv o : V3) :
    (create_cam2world_matrix fv o 0 3 = o.x ∧
     create_cam2world_matrix fv o 1 3 = o.y ∧
     create_cam2world_matrix fv o 2 3 = o.z) ∧
    (create_cam2world_matrix fv o 3 0 = 0 ∧
     create_cam2world_matrix fv o 3 1 = 0 ∧
     create_cam2world_matrix fv o 3 2 = 0 ∧
     create_cam2world_matrix fv o 3 3 = 1) ∧
    (create_cam2world_matrix fv o).mulVec ![0, 0, 1, 0] =
      ![(normalize_vecs fv).x, (normalize_vecs fv).y,
        (normalize_vecs fv).z, 0] ∧
    rotCol (create_cam2world_matrix fv o) 2 = normalize_vecs fv := by
  rw [create_cam2world_matrix_eq]
  refine ⟨⟨rfl, rfl, rfl⟩, ⟨rfl, rfl, rfl, rfl⟩, ?_, rfl⟩
  funext i
  fin_cases i <;>
    simp [Matrix.mulVec, Matrix.dotProduct, Fin.sum_univ_four]

lemma rotCol_cam_zero (fv o : V3) :
    rotCol (create_cam2world_matrix fv o) 0 = rightVec fv := by
  rw [create_cam2world_matrix_eq]; rfl

lemma rotCol_cam_one (fv o : V3) :
    rotCol (create_cam2world_matrix fv o) 1 = upVec fv := by
  rw [create_cam2world_matrix_eq]; rfl

lemma rotCol_cam_two (fv o : V3) :
    rotCol (create_cam2world_matrix fv o) 2 = normalize_vecs fv := by
  rw [create_cam2world_matrix_eq]; rfl

/-- C5: the rotation block of `create_cam2world_matrix` has columns, in
order, `right = -normalize(cross((0,1,0), normalize(forward)))`,
`up_corrected = normalize(cross(normalize(forward), right))`, and
`normalize(forward)`. -/
theorem create_cam2world_basis_columns (fv o : V3) :
    rotCol (create_cam2world_matrix fv o) 0 =
      neg3 (normalize_vecs (cross3 ⟨0, 1, 0⟩ (normalize_vecs fv))) ∧
    rotCol (create_cam2world_matrix fv o) 1 =
      normalize_vecs (cross3 (normalize_vecs fv)
        (neg3 (normalize_vecs (cross3 ⟨0, 1, 0⟩ (normalize_vecs fv))))) ∧
    rotCol (create_cam2world_matrix fv o) 2 = normalize_vecs fv :=
  ⟨rotCol_cam_zero fv o, rotCol_cam_one fv o, rotCol_cam_two fv o⟩

lemma dot3_comm (a b : V3) : dot3 a b = dot3 b a := by
  unfold dot3; ring

lemma normSq_nonneg (v : V3) : 0 ≤ normSq v := by
  unfold normSq dot3
  nlinarith [mul_self_nonneg v.x, mul_self_nonneg v.y, mul_self_nonneg v.z]

lemma norm3_mul_self (v : V3) : norm3 v * norm3 v = normSq v :=
  Real.mul_self_sqrt (normSq_nonneg v)

lemma normSq_normalize (v : V3) (h : normSq v ≠ 0) :
    normSq (normalize_vecs v) = 1 := by
  have hm : norm3 v * norm3 v = normSq v := norm3_mul_self v
  have key : normSq (normalize_vecs v) = normSq v / (norm3 v * norm3 v) := by
    unfold normSq dot3 normalize_vecs
    dsimp only
    ring
  rw [key, hm, div_self h]

lemma norm3_normalize (v : V3) (h : normSq v ≠ 0) :
    norm3 (normalize_vecs v) = 1 := by
  rw [norm3, normSq_normalize v h, Real.sqrt_one]

lemma dot3_normalize_left (a b : V3) :
    dot3 (normalize_vecs a) b = dot3 a b / norm3 a := by
  unfold dot3 normalize_vecs
  dsimp only
  ring

lemma dot3_cross_left (a b : V3) : dot3 (cross3 a b) a = 0 := by
  unfold dot3 cross3; dsimp only; ring

lemma dot3_cross_right (a b : V3) : dot3 (cross3 a b) b = 0 := by
  unfold dot3 cross3; dsimp only; ring

lemma normSq_cross (a b : V3) :
    normSq (cross3 a b) = normSq a * normSq b - dot3 a b ^ 2 := by
  unfold normSq dot3 cross3; dsimp only; ring

lemma normSq_neg3 (v : V3) : normSq (neg3 v) = normSq v := by
  unfold normSq dot3 neg3; dsimp only; ring

lemma dot3_neg3_left (a b : V3) : dot3 (neg3 a) b = -dot3 a b := by
  unfold dot3 neg3; dsimp only; ring

/-- C2: whenever the forward vector is not parallel to the world-up
`(0,1,0)` (its `x` or `z` component is nonzero, so neither cross product
degenerates), the upper-left 3×3 block of `create_cam2world_matrix` has
orthonormal columns: each column has unit norm and distinct columns have
zero dot product (exactly, under real-number semantics). -/
theorem create_cam2world_rotation_is_orthonormal (fv o : V3)
    (h : fv.x ≠ 0 ∨ fv.z ≠ 0) :
    (∀ j : Fin 3, norm3 (rotCol (create_cam2world_matrix fv o) j) = 1) ∧
    (∀ j k : Fin 3, j ≠ k →
      dot3 (rotCol (create_cam2world_matrix fv o) j)
        (rotCol (create_cam2world_matrix fv o) k) = 0) := by
  have hSq : 0 < normSq fv := by
    unfold normSq dot3
    rcases h with h | h
    · nlinarith [mul_self_nonneg fv.y, mul_self_nonneg fv.z,
        mul_self_pos.mpr h]
    · nlinarith [mul_self_nonneg fv.x, mul_self_nonneg fv.y,
        mul_self_pos.mpr h]
  have hnpos : 0 < norm3 fv := Real.sqrt_pos.mpr hSq
  have hfnSq : normSq (normalize_vecs fv) = 1 := normSq_normalize fv hSq.ne'
  have hfnxz : (normalize_vecs fv).x ≠ 0 ∨ (normalize_vecs fv).z ≠ 0 := by
    rcases h with h | h
    · exact Or.inl (div_ne_zero h hnpos.ne')
    · exact Or.inr (div_ne_zero h hnpos.ne')
  have hc1 : 0 < normSq (cross3 ⟨0, 1, 0⟩ (normalize_vecs fv)) := by
    have hval : normSq (cross3 ⟨0, 1, 0⟩ (normalize_vecs fv)) =
        (normalize_vecs fv).z * (normalize_vecs fv).z +
          (normalize_vecs fv).x * (normalize_vecs fv).x := by
      unfold normSq dot3 cross3; dsimp only; ring
    rw [hval]
    rcases hfnxz with h | h
    · nlinarith [mul_self_pos.mpr h, mul_self_nonneg (normalize_vecs fv).z]
    · nlinarith [mul_self_pos.mpr h, mul_self_nonneg (normalize_vecs fv).x]
  have hrSq : normSq (rightVec fv) = 1 := by
    rw [rightVec, normSq_neg3]
    exact normSq_normalize _ hc1.ne'
  have hrf : dot3 (rightVec fv) (normalize_vecs fv) = 0 := by
    rw [rightVec, dot3_neg3_left, dot3_normalize_left, dot3_cross_right]
    simp
  have hcu : normSq (cross3 (normalize_vecs fv) (rightVec fv)) = 1 := by
    rw [normSq_cross, hfnSq, hrSq, dot3_comm, hrf]
    ring
  have huSq : normSq (upVec fv) = 1 := by
    rw [upVec]
    exact normSq_normalize _ (by rw [hcu]; exact one_ne_zero)
  have huf : dot3 (upVec fv) (normalize_vecs fv) = 0 := by
    rw [upVec, dot3_normalize_left, dot3_cross_left]
    simp
  have hur : dot3 (upVec fv) (rightVec fv) = 0 := by
    rw [upVec, dot3_normalize_left, dot3_cross_right]
    simp
  have g0 : norm3 (rotCol (create_cam2world_matrix fv o) 0) = 1 := by
    rw [rotCol_cam_zero, norm3, hrSq, Real.sqrt_one]
  have g1 : norm3 (rotCol (create_cam2world_matrix fv o) 1) = 1 := by
    rw [rotCol_cam_one, norm3, huSq, Real.sqrt_one]
  have g2 : norm3 (rotCol (create_cam2world_matrix fv o) 2) = 1 := by
    rw [rotCol_cam_two, norm3, hfnSq, Real.sqrt_one]
  have d01 : dot3 (rotCol (create_cam2world_matrix fv o) 0)
      (rotCol (create_cam2world_matrix fv o) 1) = 0 := by
    rw [rotCol_cam_zero, rotCol_cam_one, dot3_comm]; exact hur
  have d02 : dot3 (rotCol (create_cam2world_matrix fv o) 0)
      (rotCol (create_cam2world_matrix fv o) 2) = 0 := by
    rw [rotCol_cam_zero, rotCol_cam_two]; exact hrf
  have d10 : dot3 (rotCol (create_cam2world_matrix fv o) 1)
      (rotCol (create_cam2world_matrix fv o) 0) = 0 := by
    rw [rotCol_cam_one, rotCol_cam_zero]; exact hur
  have d12 : dot3 (rotCol (create_cam2world_matrix fv o) 1)
      (rotCol (create_cam2world_matrix fv o) 2) = 0 := by
    rw [rotCol_cam_one, rotCol_cam_two]; exact huf
  have d20 : dot3 (rotCol (create_cam2world_matrix fv o) 2)
      (rotCol (create_cam2world_matrix fv o) 0) = 0 := by
    rw [rotCol_cam_two, rotCol_cam_zero, dot3_comm]; exact hrf
  have d21 : dot3 (rotCol (create_cam2world_matrix fv o) 2)
      (rotCol (create_cam2world_matrix fv o) 1) = 0 := by
    rw [rotCol_cam_two, rotCol_cam_one, dot3_comm]; exact huf
  constructor
  · intro j
    fin_cases j
    · exact g0
    · exact g1
    · exact g2
  · intro j k hjk
    fin_cases j <;> fin_cases k <;>
      first
        | exact absurd rfl hjk
        | exact d01
        | exact d02
        | exact d10
        | exact d12
        | exact d20
        | exact d21

/-- Witness for the orthonormality theorem: forward `(0,0,1)`, origin
`(0,0,0)` satisfy the hypothesis and the conclusion. -/
theorem create_cam2world_rotation_is_orthonormal_witness :
    ((⟨0, 0, 1⟩ : V3).x ≠ 0 ∨ (⟨0, 0, 1⟩ : V3).z ≠ 0) ∧
    ((∀ j : Fin 3,
        norm3 (rotCol (create_cam2world_matrix ⟨0, 0, 1⟩ ⟨0, 0, 0⟩) j) = 1) ∧
     (∀ j k : Fin 3, j ≠ k →
        dot3 (rotCol (create_cam2world_matrix ⟨0, 0, 1⟩ ⟨0, 0, 0⟩) j)
          (rotCol (create_cam2world_matrix ⟨0, 0, 1⟩ ⟨0, 0, 0⟩) k) = 0)) :=
  ⟨Or.inr (by norm_num),
   create_cam2world_rotation_is_orthonormal ⟨0, 0, 1⟩ ⟨0, 0, 0⟩
     (Or.inr (by norm_num))⟩

/-- C3: each of the three samplers, on batch row `i`, clamps the raw
vertical value to `[1e-5, π - 1e-5]`, takes `φ = arccos(1 - 2·(v/π))`,
places the camera at `(r·sin φ·cos(π-θ), r·cos φ, r·sin φ·sin(π-θ))`, points
it along `normalize(-origin)` (Gaussian, uniform) or
`normalize(lookat - origin)` (look-at), and delegates to the `(0,1,0)`-up
`create_cam2world_matrix`. -/
theorem samplers_follow_skeleton (hm vm hs vs r : ℝ) (lookat : V3)
    (B : ℕ) (nh nv lh lv uh uv : Fin B → ℝ) (i : Fin B) :
    (GaussianCameraPoseSampler.sample hm vm hs vs r B nh nv i =
      create_cam2world_matrix
        (normalize_vecs (neg3
          ⟨r * Real.sin (Real.arccos (1 - 2 *
              (clampR (nv i * vs + vm) 1e-5 (Real.pi - 1e-5) / Real.pi))) *
            Real.cos (Real.pi - (nh i * hs + hm)),
           r * Real.cos (Real.arccos (1 - 2 *
              (clampR (nv i * vs + vm) 1e-5 (Real.pi - 1e-5) / Real.pi))),
           r * Real.sin (Real.arccos (1 - 2 *
              (clampR (nv i * vs + vm) 1e-5 (Real.pi - 1e-5) / Real.pi))) *
            Real.sin (Real.pi - (nh i * hs + hm))⟩))
        ⟨r * Real.sin (Real.arccos (1 - 2 *
            (clampR (nv i * vs + vm) 1e-5 (Real.pi - 1e-5) / Real.pi))) *
          Real.cos (Real.pi - (nh i * hs + hm)),
         r * Real.cos (Real.arccos (1 - 2 *
            (clampR (nv i * vs + vm) 1e-5 (Real.pi - 1e-5) / Real.pi))),
         r * Real.sin (Real.arccos (1 - 2 *
            (clampR (nv i * vs + vm) 1e-5 (Real.pi - 1e-5) / Real.pi))) *
          Real.sin (Real.pi - (nh i * hs + hm))⟩) ∧
    (LookAtPoseSampler.sample hm vm lookat hs vs r B lh lv i =
      create_cam2world_matrix
        (normalize_vecs (sub3 lookat
          ⟨r * Real.sin (Real.arccos (1 - 2 *
              (clampR (lv i * vs + vm) 1e-5 (Real.pi - 1e-5) / Real.pi))) *
            Real.cos (Real.pi - (lh i * hs + hm)),
           r * Real.cos (Real.arccos (1 - 2 *
              (clampR (lv i * vs + vm) 1e-5 (Real.pi - 1e-5) / Real.pi))),
           r * Real.sin (Real.arccos (1 - 2 *
              (clampR (lv i * vs + vm) 1e-5 (Real.pi - 1e-5) / Real.pi))) *
            Real.sin (Real.pi - (lh i * hs + hm))⟩))
        ⟨r * Real.sin (Real.arccos (1 - 2 *
            (clampR (lv i * vs + vm) 1e-5 (Real.pi - 1e-5) / Real.pi))) *
          Real.cos (Real.pi - (lh i * hs + hm)),
         r * Real.cos (Real.arccos (1 - 2 *
            (clampR (lv i * vs + vm) 1e-5 (Real.pi - 1e-5) / Real.pi))),
         r * Real.sin (Real.arccos (1 - 2 *
            (clampR (lv i * vs + vm) 1e-5 (Real.pi - 1e-5) / Real.pi))) *
          Real.sin (Real.pi - (lh i * hs + hm))⟩) ∧
    (UniformCameraPoseSampler.sample hm vm hs vs r B uh uv i =
      create_cam2world_matrix
        (normalize_vecs (neg3
          ⟨r * Real.sin (Real.arccos (1 - 2 *
              (clampR ((uv i * 2 - 1) * vs + vm) 1e-5 (Real.pi - 1e-5) /
                Real.pi))) *
            Real.cos (Real.pi - ((uh i * 2 - 1) * hs + hm)),
           r * Real.cos (Real.arccos (1 - 2 *
              (clampR ((uv i * 2 - 1) * vs + vm) 1e-5 (Real.pi - 1e-5) /
                Real.pi))),
           r * Real.sin (Real.arccos (1 - 2 *
              (clampR ((uv i * 2 - 1) * vs + vm) 1e-5 (Real.pi - 1e-5) /
                Real.pi))) *
            Real.sin (Real.pi - ((uh i * 2 - 1) * hs + hm))⟩))
        ⟨r * Real.sin (Real.arccos (1 - 2 *
            (clampR ((uv i * 2 - 1) * vs + vm) 1e-5 (Real.pi - 1e-5) /
              Real.pi))) *
          Real.cos (Real.pi - ((uh i * 2 - 1) * hs + hm)),
         r * Real.cos (Real.arccos (1 - 2 *
            (clampR ((uv i * 2 - 1) * vs + vm) 1e-5 (Real.pi - 1e-5) /
              Real.pi))),
         r * Real.sin (Real.arccos (1 - 2 *
            (clampR ((uv i * 2 - 1) * vs + vm) 1e-5 (Real.pi - 1e-5) /
              Real.pi))) *
          Real.sin (Real.pi - ((uh i * 2 - 1) * hs + hm))⟩) :=
  ⟨rfl, rfl, rfl⟩

/-- C10: with both stddevs zero the Gaussian and uniform samplers return
the same matrix for the same parameters (whatever the random draws), and
the look-at sampler with `lookat_position = (0,0,0)` agrees with the
Gaussian sampler. -/
theorem stddev_zero_samplers_coincide (hm vm r : ℝ) (B : ℕ)
    (nh nv uh uv lh lv : Fin B → ℝ) (i : Fin B) :
    GaussianCameraPoseSampler.sample hm vm 0 0 r B nh nv i =
      UniformCameraPoseSampler.sample hm vm 0 0 r B uh uv i ∧
    LookAtPoseSampler.sample hm vm ⟨0, 0, 0⟩ 0 0 r B lh lv i =
      GaussianCameraPoseSampler.sample hm vm 0 0 r B nh nv i := by
  constructor <;>
    simp only [GaussianCameraPoseSampler.sample,
      UniformCameraPoseSampler.sample, LookAtPoseSampler.sample,
      mul_zero, zero_add, sub3, neg3, zero_sub]

/-- The translation column `[:3, 3]` of a 4×4 matrix, as a 3-vector. -/
def transCol (M : Matrix (Fin 4) (Fin 4) ℝ) : V3 := ⟨M 0 3, M 1 3, M 2 3⟩

lemma transCol_cam (fv o : V3) :
    transCol (create_cam2world_matrix fv o) = o := by
  rw [create_cam2world_matrix_eq]; rfl

lemma origin_norm3 (r θ φ : ℝ) :
    norm3 ⟨r * Real.sin φ * Real.cos (Real.pi - θ), r * Real.cos φ,
           r * Real.sin φ * Real.sin (Real.pi - θ)⟩ = |r| := by
  have h1 := Real.sin_sq_add_cos_sq (Real.pi - θ)
  have h2 := Real.sin_sq_add_cos_sq φ
  have key : (r * Real.sin φ * Real.cos (Real.pi - θ)) *
        (r * Real.sin φ * Real.cos (Real.pi - θ)) +
      (r * Real.cos φ) * (r * Real.cos φ) +
      (r * Real.sin φ * Real.sin (Real.pi - θ)) *
        (r * Real.sin φ * Real.sin (Real.pi - θ)) = r ^ 2 := by
    linear_combination (r ^ 2 * Real.sin φ ^ 2) * h1 + r ^ 2 * h2
  unfold norm3 normSq dot3
  dsimp only
  rw [key, Real.sqrt_sq_eq_abs]

/-- C8: with both stddevs zero, every row of the Gaussian and of the
uniform sampler batches is identical — independent of the random draws —
and the camera origin (translation column) lies at distance `|radius|`
from the world origin. -/
theorem stddev_zero_rows_identical_and_radius (hm vm r : ℝ) (B : ℕ)
    (nh nv nh2 nv2 uh uv uh2 uv2 : Fin B → ℝ) (i j : Fin B) :
    (GaussianCameraPoseSampler.sample hm vm 0 0 r B nh nv i =
      GaussianCameraPoseSampler.sample hm vm 0 0 r B nh2 nv2 j) ∧
    (UniformCameraPoseSampler.sample hm vm 0 0 r B uh uv i =
      UniformCameraPoseSampler.sample hm vm 0 0 r B uh2 uv2 j) ∧
    norm3 (transCol (GaussianCameraPoseSampler.sample hm vm 0 0 r B
      nh nv i)) = |r| ∧
    norm3 (transCol (UniformCameraPoseSampler.sample hm vm 0 0 r B
      uh uv i)) = |r| := by
  refine ⟨?_, ?_, ?_, ?_⟩
  · simp only [GaussianCameraPoseSampler.sample, mul_zero, zero_add]
  · simp only [UniformCameraPoseSampler.sample, mul_zero, zero_add]
  · simp only [GaussianCameraPoseSampler.sample, mul_zero, zero_add,
      transCol_cam]
    exact origin_norm3 r hm _
  · simp only [UniformCameraPoseSampler.sample, mul_zero, zero_add,
      transCol_cam]
    exact origin_norm3 r hm _

/-- C6: `generate_input_camera` converts each `(pitch_deg, yaw_deg)` pose
to radians, places the camera at
`(r·cos(pitch)·cos(yaw), r·cos(pitch)·sin(yaw), r·sin(pitch))` (so
`z = r·sin(pitch)`), uses world-up `(0,0,-1)` with basis columns
`(left, up, forward)` where `left = normalize(cross(up, forward))` with no
negation, and returns the flat intrinsics tuple `(fx, fx, 0.5, 0.5)` with
`fx = 0.5 / tan(fov/2 in radians)`. -/
theorem generate_input_camera_spec (r fov : ℝ) (poses : List (ℝ × ℝ)) :
    (generate_input_camera r poses fov).1 =
      poses.map (fun p =>
        assembleTranslation
          ⟨r * Real.cos (p.1 * Real.pi / 180) *
              Real.cos (p.2 * Real.pi / 180),
           r * Real.cos (p.1 * Real.pi / 180) *
              Real.sin (p.2 * Real.pi / 180),
           r * Real.sin (p.1 * Real.pi / 180)⟩ *
        assembleRotation
          (normalize_vecs (cross3 ⟨0, 0, -1⟩ (normalize_vecs (neg3
            ⟨r * Real.cos (p.1 * Real.pi / 180) *
                Real.cos (p.2 * Real.pi / 180),
             r * Real.cos (p.1 * Real.pi / 180) *
                Real.sin (p.2 * Real.pi / 180),
             r * Real.sin (p.1 * Real.pi / 180)⟩))))
          (normalize_vecs (cross3
            (normalize_vecs (neg3
              ⟨r * Real.cos (p.1 * Real.pi / 180) *
                  Real.cos (p.2 * Real.pi / 180),
               r * Real.cos (p.1 * Real.pi / 180) *
                  Real.sin (p.2 * Real.pi / 180),
               r * Real.sin (p.1 * Real.pi / 180)⟩))
            (normalize_vecs (cross3 ⟨0, 0, -1⟩ (normalize_vecs (neg3
              ⟨r * Real.cos (p.1 * Real.pi / 180) *
                  Real.cos (p.2 * Real.pi / 180),
               r * Real.cos (p.1 * Real.pi / 180) *
                  Real.sin (p.2 * Real.pi / 180),
               r * Real.sin (p.1 * Real.pi / 180)⟩))))))
          (normalize_vecs (neg3
            ⟨r * Real.cos (p.1 * Real.pi / 180) *
                Real.cos (p.2 * Real.pi / 180),
             r * Real.cos (p.1 * Real.pi / 180) *
                Real.sin (p.2 * Real.pi / 180),
             r * Real.sin (p.1 * Real.pi / 180)⟩))) ∧
    (generate_input_camera r poses fov).2 =
      ![0.5 / Real.tan (fov / 2 * Real.pi / 180),
        0.5 / Real.tan (fov / 2 * Real.pi / 180), 0.5, 0.5] :=
  ⟨rfl, rfl⟩

lemma flatMap_const_length {α β : Type} (g : α → List β) (n : ℕ)
    (hg : ∀ e, (g e).length = n) :
    ∀ es : List α, (es.flatMap g).length = es.length * n := by
  intro es
  induction es with
  | nil => simp
  | cons e es ih =>
    simp only [List.flatMap_cons, List.length_append, hg, ih,
      List.length_cons, Nat.succ_mul]
    omega

lemma flatMap_const_get {α β : Type} (g : α → List β) (n : ℕ)
    (hg : ∀ e, (g e).length = n) :
    ∀ (es : List α) (j i : ℕ) (hj : j < es.length) (hi : i < n)
      (h : j * n + i < (es.flatMap g).length),
      (es.flatMap g).get ⟨j * n + i, h⟩ =
        (g (es.get ⟨j, hj⟩)).get ⟨i, by rw [hg]; exact hi⟩ := by
  intro es
  induction es with
  | nil =>
    intro j i hj
    exact absurd hj (Nat.not_lt_zero j)
  | cons e es ih =>
    intro j i hj hi h
    cases j with
    | zero =>
      simp only [List.get_eq_getElem, List.flatMap_cons, Nat.zero_mul,
        Nat.zero_add, List.getElem_cons_zero]
      rw [List.getElem_append_left (by rw [hg]; exact hi)]
    | succ j =>
      have hsm : (j + 1) * n = j * n + n := Nat.succ_mul j n
      have hlen : (g e).length = n := hg e
      have hj2 : j < es.length := Nat.lt_of_succ_lt_succ hj
      have h2 : j * n + i < (es.flatMap g).length := by
        have hx := h
        simp only [List.flatMap_cons, List.length_append, hlen] at hx
        omega
      simp only [List.get_eq_getElem, List.flatMap_cons,
        List.getElem_cons_succ]
      rw [List.getElem_append_right (by rw [hlen, hsm]; omega)]
      have hidx : (j + 1) * n + i - (g e).length = j * n + i := by
        rw [hlen, hsm]; omega
      simp only [hidx]
      have h3 := ih j i hj2 hi h2
      simp only [List.get_eq_getElem] at h3
      exact h3

/-- C7: `uni_mesh_path` returns `5 * frame_number` rows: for each of the
five elevation rings `60, 30, 0, -30, -60` (in that order) and each
azimuth index `i < frame_number` (azimuth `i / frame_number * 360`), one
row of length 25 made of the flattened 4×4 pose from
`generate_input_camera` followed by the fixed 9-value intrinsics constant
`[1.3889, 0, 0.5, 0, 1.3889, 0.5, 0, 0, 0.0039]`, which replaces the
intrinsics tuple `generate_input_camera` returns. -/
theorem uni_mesh_path_rows (n : ℕ) (radius : ℝ) (hn : 1 ≤ n) :
    (uni_mesh_path n radius).length = 5 * n ∧
    (∀ row ∈ uni_mesh_path n radius,
      row.length = 25 ∧ row.drop 16 = zero123K) ∧
    (∀ j : Fin 5, ∀ i : Fin n,
      ∀ h : (j : ℕ) * n + (i : ℕ) < (uni_mesh_path n radius).length,
      (uni_mesh_path n radius).get ⟨(j : ℕ) * n + (i : ℕ), h⟩ =
        flatten4x4 ((generate_input_camera radius
            [(![60, 30, 0, -30, -60] j, ((i : ℕ) : ℝ) / (n : ℝ) * 360)]
            30).1.headI) ++ zero123K) := by
  have hg1 : ∀ e : ℝ,
      ((List.range n).map (fun i : ℕ =>
        ((e : ℝ), (i : ℝ) / (n : ℝ) * 360))).length = n := fun e => by simp
  have hpl : ((([60, 30, 0, -30, -60] : List ℝ).flatMap (fun elevation =>
      (List.range n).map (fun i : ℕ =>
        ((elevation : ℝ), (i : ℝ) / (n : ℝ) * 360)))).length) = 5 * n := by
    rw [flatMap_const_length _ n hg1]
    simp [Nat.mul_comm]
  refine ⟨?_, ?_, ?_⟩
  · simp only [uni_mesh_path, generate_input_camera, List.length_map]
    exact hpl
  · intro row hrow
    simp only [uni_mesh_path] at hrow
    obtain ⟨M, hM, rfl⟩ := List.mem_map.mp hrow
    exact ⟨rfl, rfl⟩
  · intro j i h
    have hj5 : (j : ℕ) < ([60, 30, 0, -30, -60] : List ℝ).length := j.isLt
    have hj4 : (j : ℕ) * n ≤ 4 * n :=
      Nat.mul_le_mul_right n (by omega)
    have hbound : (j : ℕ) * n + (i : ℕ) <
        ((([60, 30, 0, -30, -60] : List ℝ).flatMap (fun elevation =>
          (List.range n).map (fun i : ℕ =>
            ((elevation : ℝ), (i : ℝ) / (n : ℝ) * 360)))).length) := by
      rw [flatMap_const_length _ n hg1]
      have := i.isLt
      simp only [List.length_cons, List.length_nil]
      omega
    have hpair := flatMap_const_get _ n hg1
      ([60, 30, 0, -30, -60] : List ℝ) (j : ℕ) (i : ℕ) hj5 i.isLt hbound
    have hev : ([60, 30, 0, -30, -60] : List ℝ).get ⟨(j : ℕ), hj5⟩ =
        ![60, 30, 0, -30, -60] j := by
      fin_cases j <;> rfl
    rw [hev] at hpair
    simp only [List.get_eq_getElem] at hpair
    rw [List.get_eq_getElem]
    simp only [uni_mesh_path, generate_input_camera, List.getElem_map,
      List.headI, List.map_cons, List.map_nil]
    rw [hpair]
    simp only [List.getElem_map, List.getElem_range]

/-- Witness for `uni_mesh_path_rows`: `uni_mesh_path(4, 1.0)` has exactly
20 rows. -/
theorem uni_mesh_path_rows_witness : (uni_mesh_path 4 (1 : ℝ)).length = 20 := by
  simpa using (uni_mesh_path_rows 4 1 (by norm_num)).1

/-- C4 counterexample: at `fov_degrees = 90` the focal-length entry of
`FOV_to_intrinsics` is NOT `1 / (tan(π/4) · √2)`: the source divides by
`tan(90 · 3.14159 / 360) · 1.414`, and `3.14159 < π`, `1.414 < √2` make
the code's value strictly larger. -/
theorem FOV_to_intrinsics_90_ne_claimed :
    FOV_to_intrinsics 90 0 0 ≠ 1 / (Real.tan (Real.pi / 4) * Real.sqrt 2) := by
  have hentry : FOV_to_intrinsics 90 0 0 =
      1 / (Real.tan ((90 : ℝ) * 3.14159 / 360) * 1.414) := rfl
  have harg : (90 : ℝ) * 3.14159 / 360 = 3.14159 / 4 := by norm_num
  have hpi : (3.141592 : ℝ) < Real.pi := Real.pi_gt_d6
  have hlt : (3.14159 : ℝ) / 4 < Real.pi / 4 := by linarith
  have hpos4 : (0 : ℝ) < 3.14159 / 4 := by norm_num
  have hhalf : Real.pi / 4 < Real.pi / 2 := by linarith [Real.pi_pos]
  have htanlt : Real.tan ((3.14159 : ℝ) / 4) < 1 := by
    have hmono := Real.tan_lt_tan_of_nonneg_of_lt_pi_div_two
      (le_of_lt hpos4) hhalf hlt
    rwa [Real.tan_pi_div_four] at hmono
  have htanpos : 0 < Real.tan ((3.14159 : ℝ) / 4) :=
    Real.tan_pos_of_pos_of_lt_pi_div_two hpos4 (lt_trans hlt hhalf)
  have hsqrt : (1.414 : ℝ) < Real.sqrt 2 :=
    (Real.lt_sqrt (by norm_num)).mpr (by norm_num)
  have hprod : Real.tan ((3.14159 : ℝ) / 4) * 1.414 < Real.sqrt 2 := by
    have := mul_lt_mul htanlt (le_of_lt hsqrt)
      (by norm_num : (0 : ℝ) < 1.414) (by norm_num : (0 : ℝ) ≤ 1)
    simpa using this
  have hppos : 0 < Real.tan ((3.14159 : ℝ) / 4) * 1.414 :=
    mul_pos htanpos (by norm_num)
  rw [hentry, harg, Real.tan_pi_div_four, one_mul]
  exact ne_of_gt (one_div_lt_one_div_of_lt hppos hprod)

/-- C4 (amended): for `fov_degrees` in `(0, 180)`, `FOV_to_intrinsics`
returns `[[f, 0, 0.5], [0, f, 0.5], [0, 0, 1]]` with
`f = 1 / (tan(fov_degrees · 3.14159 / 360) · 1.414)` — the source's literal
approximations of `π` and `√2`, not the exact constants. -/
theorem FOV_to_intrinsics_formula (fov_degrees : ℝ)
    (h : 0 < fov_degrees ∧ fov_degrees < 180) :
    FOV_to_intrinsics fov_degrees =
      Matrix.of
        ![![1 / (Real.tan (fov_degrees * 3.14159 / 360) * 1.414), 0, 0.5],
          ![0, 1 / (Real.tan (fov_degrees * 3.14159 / 360) * 1.414), 0.5],
          ![0, 0, 1]] := rfl

/-- Witness for `FOV_to_intrinsics_formula` at `fov_degrees = 90`. -/
theorem FOV_to_intrinsics_formula_witness :
    ((0 : ℝ) < 90 ∧ (90 : ℝ) < 180) ∧
    FOV_to_intrinsics 90 =
      Matrix.of
        ![![1 / (Real.tan ((90 : ℝ) * 3.14159 / 360) * 1.414), 0, 0.5],
          ![0, 1 / (Real.tan ((90 : ℝ) * 3.14159 / 360) * 1.414), 0.5],
          ![0, 0, 1]] :=
  ⟨by norm_num, FOV_to_intrinsics_formula 90 (by norm_num)⟩

end
